import Mathlib

/-!
Verification of the k-means GPU image-quantization core (src/lib.rs) against its
natural-language specification.  The host-side code is shallowly embedded:

* machine integers (u32) are `Nat` with explicit `% 2^32` where overflow matters;
* image bytes are `Nat` (values below 256 by the Image invariant);
* f32 color components are modelled as exact rationals (the claims under study do
  not depend on rounding: the only conversions are byte/255);
* fallible or panicking code returns `Option`;
* the external seeded PRNG (rand's StdRng) is modelled as a deterministic pure
  stream; results that depend on it only use (a) its determinism and (b) the
  gen_range contract (the value lies in the half-open request range, and the
  call panics on an empty range);
* the GPU device is modelled by what actually reaches the readback path of the
  active code: the compute dispatch never writes the mapped output buffer
  (copy_texture_to_buffer is commented out in the source), and wgpu
  zero-initializes buffers, so the readback observes an all-zero padded buffer.
-/

/-- The Image record of lib.rs: dimensions (width, height) and a flat RGBA8 byte
buffer. Invariant (stated per-theorem): rgba.length = width * height * 4. -/
structure Image where
  dimensions : Nat × Nat
  rgba : List Nat
deriving DecidableEq, Repr

/-- Image::get_pixel: index = (x + y * width) as usize * 4 computed in u32 (hence
the explicit wrap modulo 2^32), then the slice rgba[index .. index+4].  A Rust
slice out of bounds panics, modelled as none. -/
def Image.get_pixel (img : Image) (x y : Nat) : Option (List Nat) :=
  let index := ((x + y * img.dimensions.1) % 2 ^ 32) * 4
  if index + 4 ≤ img.rgba.length then some ((img.rgba.drop index).take 4) else none

/-- padded_bytes_per_row of lib.rs: bytes_per_row = width*4 (usize, no overflow
for u32 width), plus padding (256 - bytes_per_row % 256) % 256. -/
def padded_bytes_per_row (width : Nat) : Nat :=
  let bytes_per_row := width * 4
  let padding := (256 - bytes_per_row % 256) % 256
  bytes_per_row + padding

/-- compute_work_group_count of lib.rs: (width + workgroup_width - 1) /
workgroup_width in u32 arithmetic (the addition can wrap, hence % 2^32); callers
pass workgroup sizes ≥ 1, so the u32 wrap of workgroup_width - 1 is not reached. -/
def compute_work_group_count (wh : Nat × Nat) (workgroup : Nat × Nat) : Nat × Nat :=
  (((wh.1 + (workgroup.1 - 1)) % 2 ^ 32) / workgroup.1,
   ((wh.2 + (workgroup.2 - 1)) % 2 ^ 32) / workgroup.2)

/-- The four little-endian bytes of a u32, as produced by
bytemuck::cast_slice(&[k : u32]) on the (little-endian) host. -/
def u32le (k : Nat) : List Nat :=
  [k % 256, k / 256 % 256, k / 2 ^ 16 % 256, k / 2 ^ 24 % 256]

/-- Model of the StdRng::seed_from_u64(42) stream: a 64-bit linear congruential
step stands in for the external ChaCha-based generator.  No theorem below
depends on the particular constants, only on determinism of the stream. -/
def rngNext (s : Nat) : Nat :=
  (6364136223846793005 * s + 1442695040888963407) % 2 ^ 64

/-- Model of rng.gen_range(0..n) on a generator state: advance the stream and
reduce into the requested range (the gen_range contract: the value is < n). -/
def stdGen (s n : Nat) : Nat × Nat :=
  (rngNext s % n, rngNext s)

/-- The inner `loop` of init_centroids: draw rng.gen_range(0..n) until the value
is not already in picked.  The Rust loop is unbounded, so it is modelled with
fuel; exhausted fuel (none) models non-termination.  gen_range panics on an
empty range (n = 0), also modelled as none. -/
def pickOne (gen : Nat → Nat → Nat × Nat) (st : Nat) (picked : List Nat) (n : Nat) :
    Nat → Option (Nat × Nat)
  | 0 => none
  | fuel + 1 =>
    if n = 0 then none
    else if (gen st n).1 ∈ picked then pickOne gen (gen st n).2 picked n fuel
    else some (gen st n)

/-- The outer `for _ in 0..k` of init_centroids: repeat the rejection loop k
times, pushing each accepted index at the end of picked. -/
def pickIndicesAux (gen : Nat → Nat → Nat × Nat) (st : Nat) (picked : List Nat)
    (n fuel : Nat) : Nat → Option (List Nat × Nat)
  | 0 => some (picked, st)
  | k + 1 =>
    match pickOne gen st picked n fuel with
    | none => none
    | some (v, st') => pickIndicesAux gen st' (picked ++ [v]) n fuel k

/-- total_px of init_centroids: width * height computed in u32, hence the wrap. -/
def totalPx (image : Image) : Nat :=
  (image.dimensions.1 * image.dimensions.2) % 2 ^ 32

/-- One step of the flat_map of init_centroids: x = idx % width, y = idx / width,
fetch the pixel and normalize each of its four bytes to a [0,1] rational by
dividing by 255 (modelling the f32 divisions exactly). -/
def centroidComps (image : Image) (idx : Nat) : Option (List ℚ) :=
  (image.get_pixel (idx % image.dimensions.1) (idx / image.dimensions.1)).map
    (fun px => px.map (fun b : Nat => (b : ℚ) / 255))

/-- The flat_map over picked indices, propagating a get_pixel panic as none. -/
def flatMapPx (image : Image) : List Nat → Option (List ℚ)
  | [] => some []
  | idx :: rest =>
    match centroidComps image idx, flatMapPx image rest with
    | some c, some cs => some (c ++ cs)
    | _, _ => none

/-- The byte vector built by init_centroids, kept structured: the 4 header bytes
(bytemuck bytes of k : u32) followed by the f32 color components in order; on
the wire each component occupies 4 bytes (size_of f32). -/
structure CentroidData where
  header : List Nat
  comps : List ℚ
deriving DecidableEq, Repr

/-- The total byte length of the centroid vector: 4 header bytes plus 4 bytes
per f32 component. -/
def CentroidData.byteLength (cd : CentroidData) : Nat :=
  cd.header.length + 4 * cd.comps.length

/-- init_centroids of lib.rs, parametrized by the generator model and its seed:
emit the k header bytes, sample k indices by rejection, and append the
normalized colors of the chosen pixels. -/
def init_centroidsP (gen : Nat → Nat → Nat × Nat) (seed : Nat) (image : Image)
    (k fuel : Nat) : Option CentroidData :=
  match pickIndicesAux gen seed [] (totalPx image) fuel k with
  | none => none
  | some (picked, _) =>
    match flatMapPx image picked with
    | none => none
    | some comps => some ⟨u32le k, comps⟩

/-- init_centroids as the source runs it: the generator is seeded with the
constant 42 (StdRng::seed_from_u64(42)). -/
def init_centroids (image : Image) (k fuel : Nat) : Option CentroidData :=
  init_centroidsP stdGen 42 image k fuel

/-- One run of init_centroids in an ambient environment: entropy is the
randomness the run could have drawn from its environment.  The source never
consults it — line 513 fixes the seed to 42 — so the parameter is unused. -/
def init_centroids_run (_entropy : Nat) (image : Image) (k fuel : Nat) :
    Option CentroidData :=
  init_centroidsP stdGen 42 image k fuel

/-- The initial contents of the per-pixel assignment buffer (calculated_buffer
of lib.rs, line 139): vec![k + 1; index_size] with k + 1 computed in u32. -/
def assignment_buffer_init (k index_size : Nat) : List Nat :=
  List.replicate index_size ((k + 1) % 2 ^ 32)

/-- slice::chunks_exact worker, structurally recursive on a step budget (the
budget l.length suffices since every step drops n ≥ 1 elements). -/
def chunksExactGo (n : Nat) : Nat → List Nat → List (List Nat)
  | 0, _ => []
  | steps + 1, l =>
    if 0 < n ∧ n ≤ l.length then l.take n :: chunksExactGo n steps (l.drop n) else []

/-- slice::chunks_exact(n): the maximal list of consecutive n-element chunks,
dropping any shorter remainder.  (chunks_exact panics when n = 0; the callers
below guard that case.) -/
def chunksExact (n : Nat) (l : List Nat) : List (List Nat) :=
  chunksExactGo n l.length l

/-- The readback reassembly loop of kmeans: zero the pixel vector of
unpadded*height bytes, then for each (padded row, pixel row) pair copy the first
unpadded bytes of the padded row.  chunks_exact(0) panics, modelled as none. -/
def unpadReadback (padded unpadded height : Nat) (data : List Nat) :
    Option (List Nat) :=
  if padded = 0 ∨ unpadded = 0 then none
  else
    let prows := chunksExact padded data
    let pixRows := chunksExact unpadded (List.replicate (unpadded * height) 0)
    some (List.flatten (List.zipWith (fun p _ => List.take unpadded p) prows pixRows
      ++ List.drop prows.length pixRows))

/-- The host path of kmeans in lib.rs, as the active (non-commented) code runs:
init_centroids first; every pass that would write the output texture or copy it
into the output buffer is commented out, so the mapped readback buffer holds the
padded*height zero bytes wgpu initialized it with; the reassembly then strips
row padding and wraps the pixels into a fresh Image of the same dimensions. -/
def kmeans (k : Nat) (image : Image) (fuel : Nat) : Option Image :=
  match init_centroids image k fuel with
  | none => none
  | some _ =>
    let w := image.dimensions.1
    let h := image.dimensions.2
    let paddedData := List.replicate (padded_bytes_per_row w * h) 0
    (unpadReadback (padded_bytes_per_row w) (w * 4) h paddedData).map
      (fun pixels => ⟨(w, h), pixels⟩)

/-! ### Helper lemmas about the embedding -/

theorem chunksExactGo_eq (n : Nat) (hn : 0 < n) (steps : Nat) :
    ∀ l : List Nat, l.length ≤ steps →
      chunksExactGo n steps l =
        (List.range (l.length / n)).map (fun i => (l.drop (i * n)).take n) := by
  induction steps with
  | zero =>
    intro l hl
    have hl0 : l = [] := List.eq_nil_of_length_eq_zero (Nat.le_zero.mp hl)
    subst hl0
    simp [chunksExactGo]
  | succ steps ih =>
    intro l hl
    by_cases hle : n ≤ l.length
    · have hdrop : (l.drop n).length ≤ steps := by
        simp only [List.length_drop]
        omega
      have hdiv : l.length / n = (l.length - n) / n + 1 := Nat.div_eq_sub_div hn hle
      rw [chunksExactGo, if_pos ⟨hn, hle⟩, ih _ hdrop]
      rw [hdiv, List.range_succ_eq_map, List.map_cons, List.map_map]
      simp only [List.length_drop]
      congr 1
      · simp
      · apply List.map_congr_left
        intro i _
        simp only [Function.comp_apply, List.drop_drop, Nat.succ_eq_add_one]
        congr 2
        ring
    · rw [chunksExactGo, if_neg (by omega), Nat.div_eq_of_lt (by omega)]
      simp

theorem chunksExact_eq (n : Nat) (hn : 0 < n) (l : List Nat) :
    chunksExact n l = (List.range (l.length / n)).map (fun i => (l.drop (i * n)).take n) :=
  chunksExactGo_eq n hn l.length l le_rfl

theorem zipWith_fst_map (g : List Nat → List Nat) :
    ∀ l1 l2 : List (List Nat), l1.length = l2.length →
      List.zipWith (fun p _ => g p) l1 l2 = l1.map g := by
  intro l1
  induction l1 with
  | nil => intro l2 _; simp
  | cons a l ih =>
    intro l2 h
    cases l2 with
    | nil => simp at h
    | cons b l2 =>
      simp only [List.zipWith, List.map_cons, List.length_cons] at h ⊢
      rw [ih l2 (by omega)]

theorem flatten_uniform_length {α : Type} (u : Nat) :
    ∀ rows : List (List α), (∀ row ∈ rows, row.length = u) →
      rows.flatten.length = u * rows.length := by
  intro rows
  induction rows with
  | nil => simp
  | cons r rs ih =>
    intro h
    simp only [List.flatten_cons, List.length_append, List.length_cons]
    rw [ih (fun row hr => h row (List.mem_cons_of_mem _ hr)), h r (List.mem_cons_self _ _)]
    ring

theorem flatten_uniform_row (u : Nat) :
    ∀ (rows : List (List Nat)) (r : Nat), r < rows.length →
      (∀ row ∈ rows, row.length = u) →
      (rows.flatten.drop (r * u)).take u = rows.getD r [] := by
  intro rows
  induction rows with
  | nil => intro r hr; simp at hr
  | cons row rs ih =>
    intro r hr h
    have hrow := h row (List.mem_cons_self _ _)
    cases r with
    | zero =>
      simp only [Nat.zero_mul, List.drop_zero, List.flatten_cons, List.getD_cons_zero]
      rw [← hrow, List.take_left]
    | succ r =>
      simp only [List.flatten_cons, List.getD_cons_succ]
      have hsplit : (r + 1) * u = row.length + r * u := by rw [hrow]; ring
      rw [hsplit, List.drop_append]
      exact ih r (by simpa using hr) (fun q hq => h q (List.mem_cons_of_mem _ hq))

theorem unpadReadback_eq (padded unpadded h : Nat) (data : List Nat)
    (hu : 0 < unpadded) (hup : unpadded ≤ padded) (hd : data.length = padded * h) :
    unpadReadback padded unpadded h data =
      some (((List.range h).map
        (fun r => (data.drop (r * padded)).take unpadded)).flatten) := by
  have hp : 0 < padded := lt_of_lt_of_le hu hup
  rw [unpadReadback, if_neg (by omega : ¬(padded = 0 ∨ unpadded = 0))]
  have hdp : data.length / padded = h := by
    rw [hd, Nat.mul_div_cancel_left _ hp]
  have hpr : chunksExact padded data
      = (List.range h).map (fun i => (data.drop (i * padded)).take padded) := by
    rw [chunksExact_eq padded hp, hdp]
  have hpix : (List.replicate (unpadded * h) 0 : List Nat).length / unpadded = h := by
    simp only [List.length_replicate]
    rw [Nat.mul_div_cancel_left _ hu]
  have hpixlen : (chunksExact unpadded (List.replicate (unpadded * h) 0)).length = h := by
    rw [chunksExact_eq unpadded hu, List.length_map, List.length_range, hpix]
  have hlens : (chunksExact padded data).length
      = (chunksExact unpadded (List.replicate (unpadded * h) 0)).length := by
    rw [hpixlen, hpr, List.length_map, List.length_range]
  dsimp only
  rw [zipWith_fst_map _ _ _ hlens, List.drop_eq_nil_of_le (le_of_eq hlens.symm)]
  rw [List.append_nil, hpr, List.map_map]
  refine congrArg some (congrArg List.flatten ?_)
  apply List.map_congr_left
  intro i _
  simp only [Function.comp_apply, List.take_take]
  rw [Nat.min_eq_left hup]

theorem unpad_row_take (padded unpadded h : Nat) (data : List Nat)
    (hup : unpadded ≤ padded) (hd : data.length = padded * h) :
    ∀ row ∈ (List.range h).map (fun i => (data.drop (i * padded)).take unpadded),
      row.length = unpadded := by
  intro row hrow
  rw [List.mem_map] at hrow
  obtain ⟨i, hi, hrow⟩ := hrow
  rw [List.mem_range] at hi
  subst hrow
  simp only [List.length_take, List.length_drop, hd]
  have hle : i * padded + padded ≤ padded * h := by
    calc i * padded + padded = (i + 1) * padded := by ring
    _ ≤ h * padded := Nat.mul_le_mul_right _ hi
    _ = padded * h := Nat.mul_comm _ _
  omega

theorem pickOne_spec (gen : Nat → Nat → Nat × Nat)
    (hgen : ∀ s m, 0 < m → (gen s m).1 < m) (picked : List Nat) (n : Nat) :
    ∀ fuel st v st', pickOne gen st picked n fuel = some (v, st') →
      v ∉ picked ∧ v < n := by
  intro fuel
  induction fuel with
  | zero => intro st v st' hsome; simp [pickOne] at hsome
  | succ fuel ih =>
    intro st v st' hsome
    rw [pickOne] at hsome
    by_cases hn : n = 0
    · rw [if_pos hn] at hsome; exact absurd hsome (by simp)
    · rw [if_neg hn] at hsome
      by_cases hmem : (gen st n).1 ∈ picked
      · rw [if_pos hmem] at hsome
        exact ih _ _ _ hsome
      · rw [if_neg hmem] at hsome
        have hv : (gen st n).1 = v := by
          have := Option.some.inj hsome
          exact congrArg Prod.fst this
        rw [← hv]
        exact ⟨hmem, hgen st n (Nat.pos_of_ne_zero hn)⟩

theorem pickIndicesAux_spec (gen : Nat → Nat → Nat × Nat)
    (hgen : ∀ s m, 0 < m → (gen s m).1 < m) (n fuel : Nat) :
    ∀ k st picked res st'',
      pickIndicesAux gen st picked n fuel k = some (res, st'') →
      res.length = picked.length + k ∧
      (picked.Nodup → res.Nodup) ∧
      ∀ i ∈ res, i ∈ picked ∨ i < n := by
  intro k
  induction k with
  | zero =>
    intro st picked res st'' hsome
    rw [pickIndicesAux] at hsome
    have hres : picked = res := congrArg Prod.fst (Option.some.inj hsome)
    subst hres
    exact ⟨by simp, fun hnd => hnd, fun i hi => Or.inl hi⟩
  | succ k ih =>
    intro st picked res st'' hsome
    rw [pickIndicesAux] at hsome
    cases hp : pickOne gen st picked n fuel with
    | none => rw [hp] at hsome; exact absurd hsome (by simp)
    | some vs =>
      obtain ⟨v, st'⟩ := vs
      rw [hp] at hsome
      simp only at hsome
      obtain ⟨hnm, hlt⟩ := pickOne_spec gen hgen picked n fuel st v st' hp
      obtain ⟨hl, hnd, hmem⟩ := ih st' (picked ++ [v]) res st'' hsome
      refine ⟨by simp only [List.length_append, List.length_cons, List.length_nil] at hl; omega,
        ?_, ?_⟩
      · intro hpick
        apply hnd
        rw [List.nodup_append]
        exact ⟨hpick, List.nodup_singleton v, by simpa [List.disjoint_singleton] using hnm⟩
      · intro i hi
        rcases hmem i hi with hin | hlt'
        · rw [List.mem_append] at hin
          rcases hin with h1 | h1
          · exact Or.inl h1
          · rw [List.mem_singleton] at h1
            subst h1
            exact Or.inr hlt
        · exact Or.inr hlt'

theorem centroidComps_eq (image : Image) (idx : Nat)
    (hsz : image.rgba.length = image.dimensions.1 * image.dimensions.2 * 4)
    (h32 : idx < 2 ^ 32) (hidx : idx < image.dimensions.1 * image.dimensions.2) :
    centroidComps image idx
      = some (((image.rgba.drop (idx * 4)).take 4).map (fun b : Nat => (b : ℚ) / 255)) := by
  unfold centroidComps Image.get_pixel
  have hxy : idx % image.dimensions.1 + idx / image.dimensions.1 * image.dimensions.1 = idx :=
    Nat.mod_add_div' idx image.dimensions.1
  rw [hxy, Nat.mod_eq_of_lt h32, if_pos (by omega)]
  rfl

theorem flatMapPx_eq_of (image : Image) (g : Nat → List ℚ) :
    ∀ picked : List Nat, (∀ i ∈ picked, centroidComps image i = some (g i)) →
      flatMapPx image picked = some ((picked.map g).flatten) := by
  intro picked
  induction picked with
  | nil => intro _; simp [flatMapPx]
  | cons i rest ih =>
    intro hall
    rw [flatMapPx, hall i (List.mem_cons_self _ _),
      ih (fun j hj => hall j (List.mem_cons_of_mem _ hj))]
    simp

/-! ### Concrete images used in witnesses and failing inputs -/

/-- A 1×1 image whose single pixel is opaque red (255,0,0,255). -/
def oneRedPixel : Image := ⟨(1, 1), [255, 0, 0, 255]⟩

/-- A 2×2 image with four pairwise distinct pixels. -/
def fourPixels : Image :=
  ⟨(2, 2), [10, 11, 12, 13, 20, 21, 22, 23, 30, 31, 32, 33, 40, 41, 42, 43]⟩

/-- An image with width = 2^16 and height = 2^16 + 1, so that width*height =
2^32 + 2^16 pixels: the pixel at (0, 2^16) has linear index 2^32, which wraps to
0 in the u32 index arithmetic of get_pixel.  Its buffer holds 7s in the first
four bytes and 0s everywhere else, making pixel 0 and pixel 2^32 distinguishable. -/
def hugeImage : Image :=
  ⟨(2 ^ 16, 2 ^ 16 + 1), [7, 7, 7, 7] ++ List.replicate (2 ^ 34 + 2 ^ 18 - 4) 0⟩

/-! ### Claim theorems -/

/-- Claim C4: for every width ≥ 1, padded_bytes_per_row(width) equals
ceil(width*4 / 256) * 256.  Smallestness of the multiple is expressed without a
quantifier: the value is a multiple of 256, is ≥ width*4, and is < width*4 + 256. -/
theorem padded_bytes_per_row_correct (w : Nat) (_hw : 1 ≤ w) :
    padded_bytes_per_row w = (w * 4 + 255) / 256 * 256 ∧
    w * 4 ≤ padded_bytes_per_row w ∧
    padded_bytes_per_row w % 256 = 0 ∧
    padded_bytes_per_row w < w * 4 + 256 := by
  unfold padded_bytes_per_row
  dsimp only
  omega

/-- Witness for C4 at width 100 (stride 400 pads to 512). -/
theorem padded_bytes_per_row_correct_witness :
    padded_bytes_per_row 100 = (100 * 4 + 255) / 256 * 256 ∧
    100 * 4 ≤ padded_bytes_per_row 100 ∧
    padded_bytes_per_row 100 % 256 = 0 ∧
    padded_bytes_per_row 100 < 100 * 4 + 256 :=
  padded_bytes_per_row_correct 100 (by decide)

/-- Claim C8: for width, height ≤ 2^32 - 16 the u32 additions do not wrap and
compute_work_group_count((w,h),(16,16)) is exactly the pair of ceiling divisions
by 16 (characterized by w ≤ 16*x < w + 16), so boundary tiles are included. -/
theorem compute_work_group_count_correct (w h : Nat)
    (hw : w ≤ 2 ^ 32 - 16) (hh : h ≤ 2 ^ 32 - 16) :
    compute_work_group_count (w, h) (16, 16) = ((w + 15) / 16, (h + 15) / 16) ∧
    w ≤ 16 * ((w + 15) / 16) ∧ 16 * ((w + 15) / 16) < w + 16 ∧
    h ≤ 16 * ((h + 15) / 16) ∧ 16 * ((h + 15) / 16) < h + 16 := by
  unfold compute_work_group_count
  refine ⟨?_, by omega, by omega, by omega, by omega⟩
  simp only
  rw [Nat.mod_eq_of_lt (by omega), Nat.mod_eq_of_lt (by omega)]

/-- Witness for C8 at a 100×200 image: 7×13 workgroups. -/
theorem compute_work_group_count_correct_witness :
    compute_work_group_count (100, 200) (16, 16) = ((100 + 15) / 16, (200 + 15) / 16) ∧
    100 ≤ 16 * ((100 + 15) / 16) ∧ 16 * ((100 + 15) / 16) < 100 + 16 ∧
    200 ≤ 16 * ((200 + 15) / 16) ∧ 16 * ((200 + 15) / 16) < 200 + 16 :=
  compute_work_group_count_correct 100 200 (by norm_num) (by norm_num)

/-- Claim C3 counterexample: for K = 2 on a 2×2 image the source initializes
the assignment buffer with k + 1 = 3 in every entry, so an entry equal to 3 — and
not to the claimed sentinel K = 2 — is a member. -/
theorem assignment_buffer_holds_succ_not_k :
    3 ∈ assignment_buffer_init 2 (2 * 2) ∧ (3 : Nat) ≠ 2 := by
  constructor
  · decide
  · decide

/-- Claim C3 (amended): before the first assignment pass the buffer has one entry
per pixel and every entry is the sentinel K + 1 (computed in u32), not K. -/
theorem assignment_buffer_init_sentinel (k n : Nat) :
    (assignment_buffer_init k n).length = n ∧
    ∀ e ∈ assignment_buffer_init k n, e = (k + 1) % 2 ^ 32 := by
  refine ⟨List.length_replicate _ _, ?_⟩
  intro e he
  exact List.eq_of_mem_replicate he

/-- Witness for the amended C3 at K = 2 on a 2×2 image, entry value 3. -/
theorem assignment_buffer_init_sentinel_witness :
    (assignment_buffer_init 2 (2 * 2)).length = 2 * 2 ∧ (3 : Nat) = (2 + 1) % 2 ^ 32 :=
  ⟨(assignment_buffer_init_sentinel 2 (2 * 2)).1,
   (assignment_buffer_init_sentinel 2 (2 * 2)).2 3 (by decide)⟩

/-- Claim C6: centroid initialization is deterministic.  A run is modelled with
the ambient entropy it could have consumed; since the source seeds its PRNG with
the fixed constant 42, any two runs on the same image and K produce identical
centroid data, equal to the canonical init_centroids output. -/
theorem init_centroids_deterministic (e1 e2 : Nat) (image : Image) (k fuel : Nat) :
    init_centroids_run e1 image k fuel = init_centroids_run e2 image k fuel ∧
    init_centroids_run e1 image k fuel = init_centroids image k fuel :=
  ⟨rfl, rfl⟩

/-- Claim C10 (amended): under the length invariant, x < width, y < height, and
width*height ≤ 2^32 (so the u32 index arithmetic cannot wrap), get_pixel indexes
in bounds and returns exactly the 4-byte slice at offset (x + y*width)*4. -/
theorem get_pixel_inbounds (img : Image) (x y : Nat)
    (hlen : img.rgba.length = img.dimensions.1 * img.dimensions.2 * 4)
    (hx : x < img.dimensions.1) (hy : y < img.dimensions.2)
    (hfit : img.dimensions.1 * img.dimensions.2 ≤ 2 ^ 32) :
    img.get_pixel x y
      = some ((img.rgba.drop ((x + y * img.dimensions.1) * 4)).take 4) ∧
    (x + y * img.dimensions.1) * 4 + 4 ≤ img.rgba.length := by
  have hidx : x + y * img.dimensions.1 < img.dimensions.1 * img.dimensions.2 := by
    calc x + y * img.dimensions.1 < img.dimensions.1 + y * img.dimensions.1 := by omega
    _ = (y + 1) * img.dimensions.1 := by ring
    _ ≤ img.dimensions.2 * img.dimensions.1 := Nat.mul_le_mul_right _ hy
    _ = img.dimensions.1 * img.dimensions.2 := Nat.mul_comm _ _
  have hmod : (x + y * img.dimensions.1) % 2 ^ 32 = x + y * img.dimensions.1 :=
    Nat.mod_eq_of_lt (by omega)
  unfold Image.get_pixel
  rw [hmod, if_pos (by omega)]
  exact ⟨rfl, by omega⟩

/-- Witness for the amended C10: pixel (1,1) of the 2×2 image is the last
4-byte group of the buffer. -/
theorem get_pixel_inbounds_witness :
    fourPixels.get_pixel 1 1
      = some ((fourPixels.rgba.drop ((1 + 1 * fourPixels.dimensions.1) * 4)).take 4) ∧
    (1 + 1 * fourPixels.dimensions.1) * 4 + 4 ≤ fourPixels.rgba.length :=
  get_pixel_inbounds fourPixels 1 1 (by decide) (by decide) (by decide) (by decide)

/-- Claim C10 counterexample: on an image with width*height = 2^32 + 2^16 pixels
(the length invariant holds, x = 0 < width, y = 2^16 < height), the u32 index
x + y*width = 2^32 wraps to 0, so get_pixel returns the bytes of pixel 0
([7,7,7,7]) instead of the 4-byte slice at the claimed offset (x + y*width)*4
(which holds [0,0,0,0]): the returned slice is not the claimed one. -/
theorem get_pixel_wraps_on_large_image :
    hugeImage.rgba.length = hugeImage.dimensions.1 * hugeImage.dimensions.2 * 4 ∧
    0 < hugeImage.dimensions.1 ∧ 2 ^ 16 < hugeImage.dimensions.2 ∧
    hugeImage.get_pixel 0 (2 ^ 16) = some [7, 7, 7, 7] ∧
    (hugeImage.rgba.drop ((0 + 2 ^ 16 * hugeImage.dimensions.1) * 4)).take 4
      = [0, 0, 0, 0] ∧
    hugeImage.get_pixel 0 (2 ^ 16)
      ≠ some ((hugeImage.rgba.drop ((0 + 2 ^ 16 * hugeImage.dimensions.1) * 4)).take 4) := by
  have hlen : hugeImage.rgba.length = 2 ^ 34 + 2 ^ 18 := by
    show ([7, 7, 7, 7] ++ List.replicate (2 ^ 34 + 2 ^ 18 - 4) 0).length = 2 ^ 34 + 2 ^ 18
    rw [List.length_append, List.length_replicate]
    norm_num
  have hdim1 : hugeImage.dimensions.1 = 2 ^ 16 := rfl
  have hdim2 : hugeImage.dimensions.2 = 2 ^ 16 + 1 := rfl
  have hget : hugeImage.get_pixel 0 (2 ^ 16) = some [7, 7, 7, 7] := by
    unfold Image.get_pixel
    rw [hdim1]
    have hwrap : (0 + 2 ^ 16 * 2 ^ 16) % 2 ^ 32 = 0 := by norm_num
    rw [hwrap, if_pos (by rw [hlen]; norm_num)]
    rfl
  have hslice : (hugeImage.rgba.drop ((0 + 2 ^ 16 * hugeImage.dimensions.1) * 4)).take 4
      = [0, 0, 0, 0] := by
    rw [hdim1]
    have h0 : (0 + 2 ^ 16 * 2 ^ 16) * 4 = 4 + (2 ^ 34 - 4) := by norm_num
    show (([7, 7, 7, 7] ++ List.replicate (2 ^ 34 + 2 ^ 18 - 4) 0).drop
      ((0 + 2 ^ 16 * 2 ^ 16) * 4)).take 4 = [0, 0, 0, 0]
    rw [h0, show (4 : Nat) = ([7, 7, 7, 7] : List Nat).length from rfl, List.drop_append,
      List.drop_replicate, List.take_replicate]
    norm_num
    decide
  refine ⟨?_, by decide, by decide, hget, hslice, ?_⟩
  · rw [hlen, hdim1, hdim2]
    norm_num
  · rw [hget, hslice]
    decide

/-- Claim C5 (amended): for every width ≥ 1 and height, on any padded readback
buffer of padded_bytes_per_row(width)*height bytes, the reassembly succeeds and
yields the reference unpadded layout: the concatenation, over the rows, of the
first width*4 bytes of each padded row; it has exactly width*height*4 bytes and
its row r is the first width*4 bytes of padded row r. -/
theorem readback_reassembly_rows (w h r : Nat) (data : List Nat) (hw : 1 ≤ w) (hr : r < h)
    (hd : data.length = padded_bytes_per_row w * h) :
    unpadReadback (padded_bytes_per_row w) (w * 4) h data
      = some (((List.range h).map
          (fun i => (data.drop (i * padded_bytes_per_row w)).take (w * 4))).flatten) ∧
    (((List.range h).map
        (fun i => (data.drop (i * padded_bytes_per_row w)).take (w * 4))).flatten).length
      = w * h * 4 ∧
    ((((List.range h).map
        (fun i => (data.drop (i * padded_bytes_per_row w)).take (w * 4))).flatten).drop
          (r * (w * 4))).take (w * 4)
      = (data.drop (r * padded_bytes_per_row w)).take (w * 4) := by
  have hu : 0 < w * 4 := by omega
  have hup : w * 4 ≤ padded_bytes_per_row w := by
    unfold padded_bytes_per_row
    dsimp only
    omega
  have huni := unpad_row_take (padded_bytes_per_row w) (w * 4) h data hup hd
  have hrowsl : ((List.range h).map
      (fun i => (data.drop (i * padded_bytes_per_row w)).take (w * 4))).length = h := by
    rw [List.length_map, List.length_range]
  refine ⟨unpadReadback_eq _ _ _ _ hu hup hd, ?_, ?_⟩
  · rw [flatten_uniform_length (w * 4) _ huni, hrowsl]
    ring
  · rw [flatten_uniform_row (w * 4) _ r (by omega) huni,
      List.getD_eq_getElem _ _ (by omega)]
    simp

/-- Claim C5 counterexample: at width = 0 both the padded and the unpadded
strides are 0, and slice::chunks_exact(0) panics, so the reassembly produces no
pixel buffer at all (the claim asserts it produces one of 0 bytes). -/
theorem readback_reassembly_zero_width_panics :
    unpadReadback (padded_bytes_per_row 0) (0 * 4) 5
      (List.replicate (padded_bytes_per_row 0 * 5) 0) = none := by
  decide

set_option maxRecDepth 4000 in
/-- Witness for the amended C5 at width 3 (stride 12 pads to 256, width not
divisible by 64), height 2, row 1. -/
theorem readback_reassembly_rows_witness :
    unpadReadback (padded_bytes_per_row 3) (3 * 4) 2 (List.replicate 512 1)
      = some (((List.range 2).map
          (fun i => ((List.replicate 512 1 : List Nat).drop
            (i * padded_bytes_per_row 3)).take (3 * 4))).flatten) ∧
    (((List.range 2).map
        (fun i => ((List.replicate 512 1 : List Nat).drop
          (i * padded_bytes_per_row 3)).take (3 * 4))).flatten).length
      = 3 * 2 * 4 ∧
    ((((List.range 2).map
        (fun i => ((List.replicate 512 1 : List Nat).drop
          (i * padded_bytes_per_row 3)).take (3 * 4))).flatten).drop
          (1 * (3 * 4))).take (3 * 4)
      = ((List.replicate 512 1 : List Nat).drop (1 * padded_bytes_per_row 3)).take (3 * 4) :=
  readback_reassembly_rows 3 2 1 (List.replicate 512 1) (by decide) (by decide)
    (by simp [List.length_replicate, padded_bytes_per_row])

/-- Evaluation lemma for init_centroidsP when both the sampler and the color
fetch succeed. -/
theorem init_centroidsP_eq_of (gen : Nat → Nat → Nat × Nat) (seed : Nat)
    (image : Image) (k fuel : Nat) (picked : List Nat) (st' : Nat) (comps : List ℚ)
    (hpick : pickIndicesAux gen seed [] (totalPx image) fuel k = some (picked, st'))
    (hflat : flatMapPx image picked = some comps) :
    init_centroidsP gen seed image k fuel = some ⟨u32le k, comps⟩ := by
  simp only [init_centroidsP, hpick, hflat]

/-- Claim C1 (code_bug): on the 1×1 opaque-red image with K = 1, the active
code path returns the all-zero image — the Output Compositor and the
texture-to-buffer copy are commented out, so the readback buffer is never
written and the reassembled pixels are the zeros wgpu initialized it with —
while the single centroid of the final CentroidSet is the red pixel, normalized
to color (1,0,0,1) (255 as an 8-bit channel).  The output pixel (0,0,0,0) is
therefore not drawn from the K-color palette {(255,0,0,255)}. -/
theorem kmeans_output_not_from_palette :
    kmeans 1 oneRedPixel 2 = some ⟨(1, 1), [0, 0, 0, 0]⟩ ∧
    init_centroids oneRedPixel 1 2 = some ⟨u32le 1, [1, 0, 0, 1]⟩ ∧
    ([0, 0, 0, 0] : List Nat) ≠ [255, 0, 0, 255] := by
  refine ⟨?_, ?_, by decide⟩
  · set_option maxRecDepth 8000 in decide
  · have h : init_centroids oneRedPixel 1 2
        = some ⟨u32le 1, [(255 : ℚ)/255, (0 : ℚ)/255, (0 : ℚ)/255, (255 : ℚ)/255]⟩ := by
      rfl
    rw [h]
    norm_num

/-- The rejection loop can never terminate once the only available index 0 has
been picked: gen_range(0..1) always returns 0, which is rejected forever. -/
theorem pickOne_single_zero_none (fuel : Nat) :
    ∀ st, pickOne stdGen st [0] 1 fuel = none := by
  induction fuel with
  | zero => intro st; rfl
  | succ fuel ih =>
    intro st
    rw [pickOne, if_neg one_ne_zero]
    have hmem : (stdGen st 1).1 ∈ [0] := by
      simp [stdGen, Nat.mod_one]
    rw [if_pos hmem]
    exact ih _

/-- On a 1×1 image, asking for two distinct pixel indices exhausts any fuel:
the Rust loop never terminates. -/
theorem pickTwo_from_one_pixel_none (fuel : Nat) :
    pickIndicesAux stdGen 42 [] 1 fuel 2 = none := by
  cases fuel with
  | zero => rfl
  | succ fuel =>
    have h1 : pickOne stdGen 42 [] 1 (fuel + 1) = some (0, rngNext 42) := by
      rw [pickOne, if_neg one_ne_zero, if_neg (by simp)]
      simp [stdGen, Nat.mod_one]
    rw [pickIndicesAux, h1]
    simp only [List.nil_append]
    rw [pickIndicesAux, pickOne_single_zero_none]

/-- Claim C2 (code_bug): kmeans performs no InvalidK validation.  With K = 0 on
a 1×1 image it does not fail: it runs the whole pipeline and returns an image
(the all-zero one).  With K = 2 > width*height = 1 the rejection sampler in
init_centroids loops forever drawing the only pixel index 0 (modelled: the run
returns none for every fuel bound), so no distinguishable InvalidK error is
ever produced on either side of the claimed range. -/
theorem kmeans_no_invalid_k_error :
    kmeans 0 oneRedPixel 1 = some ⟨(1, 1), [0, 0, 0, 0]⟩ ∧
    ∀ fuel, kmeans 2 oneRedPixel fuel = none := by
  constructor
  · set_option maxRecDepth 8000 in decide
  · intro fuel
    have hnone : init_centroids oneRedPixel 2 fuel = none := by
      rw [init_centroids]
      have : pickIndicesAux stdGen 42 [] (totalPx oneRedPixel) fuel 2 = none := by
        rw [show totalPx oneRedPixel = 1 from rfl]
        exact pickTwo_from_one_pixel_none fuel
      simp only [init_centroidsP, this]
    rw [kmeans, hnone]

/-- Claim C7: for any generator satisfying the gen_range contract, whenever the
sampler and init_centroids return, with 1 ≤ K ≤ width*height and the Image
length invariant, the K centroid colors come from K pairwise-distinct pixel
indices, each in [0, width*height), and each centroid's color is the chosen
pixel's four RGBA bytes each divided by 255. -/
theorem init_centroids_distinct_normalized (gen : Nat → Nat → Nat × Nat)
    (seed : Nat) (image : Image) (k fuel : Nat) (cd : CentroidData)
    (picked : List Nat) (st' : Nat)
    (hgen : ∀ s m, 0 < m → (gen s m).1 < m)
    (hsz : image.rgba.length = image.dimensions.1 * image.dimensions.2 * 4)
    (_hk1 : 1 ≤ k) (_hk2 : k ≤ image.dimensions.1 * image.dimensions.2)
    (hpick : pickIndicesAux gen seed [] (totalPx image) fuel k = some (picked, st'))
    (hinit : init_centroidsP gen seed image k fuel = some cd) :
    picked.Nodup ∧ picked.length = k ∧
    (∀ i ∈ picked, i < image.dimensions.1 * image.dimensions.2) ∧
    cd.comps = (picked.map (fun idx =>
      ((image.rgba.drop (idx * 4)).take 4).map (fun b : Nat => (b : ℚ) / 255))).flatten := by
  obtain ⟨hl, hnd, hmem⟩ :=
    pickIndicesAux_spec gen hgen (totalPx image) fuel k seed [] picked st' hpick
  have hbound : ∀ i ∈ picked, i < totalPx image := by
    intro i hi
    rcases hmem i hi with h1 | h1
    · exact absurd h1 (List.not_mem_nil i)
    · exact h1
  have hwh : ∀ i ∈ picked, i < image.dimensions.1 * image.dimensions.2 :=
    fun i hi => lt_of_lt_of_le (hbound i hi) (Nat.mod_le _ _)
  have hflat : flatMapPx image picked = some ((picked.map (fun idx =>
      ((image.rgba.drop (idx * 4)).take 4).map (fun b : Nat => (b : ℚ) / 255))).flatten) := by
    apply flatMapPx_eq_of
    intro i hi
    exact centroidComps_eq image i hsz
      (Nat.lt_trans (hbound i hi) (Nat.mod_lt _ (by norm_num))) (hwh i hi)
  have hcd : some (⟨u32le k, (picked.map (fun idx =>
      ((image.rgba.drop (idx * 4)).take 4).map (fun b : Nat => (b : ℚ) / 255))).flatten⟩
        : CentroidData) = some cd := by
    rw [← hinit]
    exact (init_centroidsP_eq_of gen seed image k fuel picked st' _ hpick hflat).symm
  have hcd' := Option.some.inj hcd
  refine ⟨hnd List.nodup_nil, by simpa using hl, hwh, ?_⟩
  rw [← hcd']

/-- Witness for C7: on the 2×2 image with K = 2 and fuel 8, the modelled sampler
picks the distinct pixel indices [1, 0] and the centroid colors are the bytes of
pixels 1 and 0 divided by 255. -/
theorem init_centroids_distinct_normalized_witness :
    ([1, 0] : List Nat).Nodup ∧ ([1, 0] : List Nat).length = 2 ∧
    1 < fourPixels.dimensions.1 * fourPixels.dimensions.2 ∧
    (CentroidData.mk (u32le 2)
      [(20 : ℚ)/255, (21 : ℚ)/255, (22 : ℚ)/255, (23 : ℚ)/255,
       (10 : ℚ)/255, (11 : ℚ)/255, (12 : ℚ)/255, (13 : ℚ)/255]).comps
      = (([1, 0] : List Nat).map (fun idx =>
          ((fourPixels.rgba.drop (idx * 4)).take 4).map (fun b : Nat => (b : ℚ) / 255))).flatten := by
  obtain ⟨h1, h2, h3, h4⟩ := init_centroids_distinct_normalized stdGen 42 fourPixels 2 8
    (CentroidData.mk (u32le 2)
      [(20 : ℚ)/255, (21 : ℚ)/255, (22 : ℚ)/255, (23 : ℚ)/255,
       (10 : ℚ)/255, (11 : ℚ)/255, (12 : ℚ)/255, (13 : ℚ)/255])
    [1, 0] 4159066171780167020
    (fun s m hm => Nat.mod_lt _ hm) (by decide) (by decide) (by decide) (by decide) (by rfl)
  exact ⟨h1, h2, h3 1 (by decide), h4⟩

/-- Claim C9: whenever init_centroids returns for 1 ≤ K ≤ width*height, the
centroid byte vector is 4 header bytes — K as a little-endian u32 — followed by
4*K f32 components of 4 bytes each: 4 + 16*K bytes in total (which is why the
readback of the centroid buffer skips the first 4 bytes). -/
theorem init_centroids_byte_layout (gen : Nat → Nat → Nat × Nat)
    (seed : Nat) (image : Image) (k fuel : Nat) (cd : CentroidData)
    (picked : List Nat) (st' : Nat)
    (hgen : ∀ s m, 0 < m → (gen s m).1 < m)
    (hsz : image.rgba.length = image.dimensions.1 * image.dimensions.2 * 4)
    (_hk1 : 1 ≤ k) (_hk2 : k ≤ image.dimensions.1 * image.dimensions.2)
    (hpick : pickIndicesAux gen seed [] (totalPx image) fuel k = some (picked, st'))
    (hinit : init_centroidsP gen seed image k fuel = some cd) :
    cd.header = u32le k ∧ cd.header.length = 4 ∧
    cd.comps.length = 4 * k ∧ cd.byteLength = 4 + 16 * k := by
  obtain ⟨hl, _hnd, hmem⟩ :=
    pickIndicesAux_spec gen hgen (totalPx image) fuel k seed [] picked st' hpick
  have hbound : ∀ i ∈ picked, i < totalPx image := by
    intro i hi
    rcases hmem i hi with h1 | h1
    · exact absurd h1 (List.not_mem_nil i)
    · exact h1
  have hwh : ∀ i ∈ picked, i < image.dimensions.1 * image.dimensions.2 :=
    fun i hi => lt_of_lt_of_le (hbound i hi) (Nat.mod_le _ _)
  have hflat : flatMapPx image picked = some ((picked.map (fun idx =>
      ((image.rgba.drop (idx * 4)).take 4).map (fun b : Nat => (b : ℚ) / 255))).flatten) := by
    apply flatMapPx_eq_of
    intro i hi
    exact centroidComps_eq image i hsz
      (Nat.lt_trans (hbound i hi) (Nat.mod_lt _ (by norm_num))) (hwh i hi)
  have hcd : (⟨u32le k, (picked.map (fun idx =>
      ((image.rgba.drop (idx * 4)).take 4).map (fun b : Nat => (b : ℚ) / 255))).flatten⟩
        : CentroidData) = cd :=
    Option.some.inj (by
      rw [← hinit]
      exact (init_centroidsP_eq_of gen seed image k fuel picked st' _ hpick hflat).symm)
  have hrows : ∀ row ∈ picked.map (fun idx =>
      ((image.rgba.drop (idx * 4)).take 4).map (fun b : Nat => (b : ℚ) / 255)), row.length = 4 := by
    intro row hrow
    rw [List.mem_map] at hrow
    obtain ⟨i, hi, hrow⟩ := hrow
    subst hrow
    have hib := hwh i hi
    simp only [List.length_map, List.length_take, List.length_drop, hsz]
    omega
  have hclen : cd.comps.length = 4 * k := by
    rw [← hcd]
    show ((picked.map (fun idx =>
      ((image.rgba.drop (idx * 4)).take 4).map (fun b : Nat => (b : ℚ) / 255))).flatten).length = 4 * k
    rw [flatten_uniform_length 4 _ hrows, List.length_map]
    simp only [List.length_nil] at hl
    omega
  refine ⟨by rw [← hcd], by rw [← hcd]; rfl, hclen, ?_⟩
  rw [CentroidData.byteLength, hclen, ← hcd]
  simp [u32le]
  omega

/-- Witness for C9: on the 2×2 image with K = 2 and fuel 8, the centroid data is
the header [2,0,0,0] followed by 8 components, 4 + 16*2 = 36 bytes. -/
theorem init_centroids_byte_layout_witness :
    (CentroidData.mk (u32le 2)
      [(20 : ℚ)/255, (21 : ℚ)/255, (22 : ℚ)/255, (23 : ℚ)/255,
       (10 : ℚ)/255, (11 : ℚ)/255, (12 : ℚ)/255, (13 : ℚ)/255]).header = u32le 2 ∧
    (CentroidData.mk (u32le 2)
      [(20 : ℚ)/255, (21 : ℚ)/255, (22 : ℚ)/255, (23 : ℚ)/255,
       (10 : ℚ)/255, (11 : ℚ)/255, (12 : ℚ)/255, (13 : ℚ)/255]).header.length = 4 ∧
    (CentroidData.mk (u32le 2)
      [(20 : ℚ)/255, (21 : ℚ)/255, (22 : ℚ)/255, (23 : ℚ)/255,
       (10 : ℚ)/255, (11 : ℚ)/255, (12 : ℚ)/255, (13 : ℚ)/255]).comps.length = 4 * 2 ∧
    (CentroidData.mk (u32le 2)
      [(20 : ℚ)/255, (21 : ℚ)/255, (22 : ℚ)/255, (23 : ℚ)/255,
       (10 : ℚ)/255, (11 : ℚ)/255, (12 : ℚ)/255, (13 : ℚ)/255]).byteLength = 4 + 16 * 2 :=
  init_centroids_byte_layout stdGen 42 fourPixels 2 8
    (CentroidData.mk (u32le 2)
      [(20 : ℚ)/255, (21 : ℚ)/255, (22 : ℚ)/255, (23 : ℚ)/255,
       (10 : ℚ)/255, (11 : ℚ)/255, (12 : ℚ)/255, (13 : ℚ)/255])
    [1, 0] 4159066171780167020
    (fun s m hm => Nat.mod_lt _ hm) (by decide) (by decide) (by decide) (by decide) (by rfl)
